import Mathlib

/-!
Shallow embedding of `src/apartment_scraper.py` (class `ApartmentScraper` and
`main`), together with proofs about the claims of the specification.

The browser is modelled as a value of type `PageOutcome` (either a render
timeout or a list of unit element handles), an element handle as an
association list from CSS selectors to lookup outcomes, and the filesystem as
the list of paths that exist.  All text manipulation from the script
(`str.strip`, `str.replace`, the pandas case-insensitive `str.replace`,
`os.path.basename`, `os.path.splitext`, `os.path.join`) is embedded on
`List Char` over the ASCII range.
-/

/-- Characters stripped by Python's `str.strip()` (the ASCII/Latin-1 part of
Python's whitespace set). -/
def isPySpace (c : Char) : Bool :=
  c = ' ' || c = '\t' || c = '\n' || c = '\r' || c = '\x0b' || c = '\x0c' ||
  c = '\x1c' || c = '\x1d' || c = '\x1e' || c = '\x1f' || c = '\x85'

/-- Python `str.strip()` on a list of characters: drop whitespace from the
left, then from the right. -/
def pyStripL (l : List Char) : List Char :=
  (l.dropWhile isPySpace).rdropWhile isPySpace

/-- Python `str.strip()`. -/
def pyStrip (s : String) : String :=
  ⟨pyStripL s.data⟩

/-- Does `pat` occur at the head of the second list, comparing characters
with `eqc`? -/
def litAt (eqc : Char → Char → Bool) : List Char → List Char → Bool
  | [], _ => true
  | _ :: _, [] => false
  | p :: ps, c :: cs => eqc p c && litAt eqc ps cs

/-- Left-to-right removal of every non-overlapping occurrence of `pat`
(fuel-bounded recursion; `s.length` fuel always suffices since every step
consumes at least one character).  This is the scan performed both by Python's
`str.replace(pat, "")` and by `re.sub` with an empty replacement.  `pat` is
only ever instantiated with the two nonempty literals of the script. -/
def removeAllAux (eqc : Char → Char → Bool) (pat : List Char) :
    Nat → List Char → List Char
  | _, [] => []
  | 0, l => l
  | fuel + 1, c :: rest =>
    if litAt eqc pat (c :: rest) then
      removeAllAux eqc pat fuel (rest.drop (pat.length - 1))
    else
      c :: removeAllAux eqc pat fuel rest

/-- Case-sensitive character equality used by Python's `str.replace`. -/
def csEq (a b : Char) : Bool := a == b

/-- ASCII-case-insensitive character equality, modelling `re.IGNORECASE`
(which is what pandas `str.replace(..., case=False)` compiles to). -/
def ciEq (a b : Char) : Bool := a.toLower == b.toLower

/-- Canonical list-level removal: fuel `l.length` always suffices. -/
def removeAllL (eqc : Char → Char → Bool) (pat l : List Char) : List Char :=
  removeAllAux eqc pat l.length l

/-- Python `s.replace(pat, "")`: case-sensitive removal of every
occurrence. -/
def pyReplaceAll (pat s : String) : String :=
  ⟨removeAllL csEq pat.data s.data⟩

/-- pandas `s.str.replace(pat, "", case=False)` on one cell:
case-insensitive removal of every occurrence. -/
def ciRemoveAll (pat s : String) : String :=
  ⟨removeAllL ciEq pat.data s.data⟩

/-- Does `pat` occur (under `eqc`) anywhere in the list? -/
def hasLit (eqc : Char → Char → Bool) (pat : List Char) : List Char → Bool
  | [] => litAt eqc pat []
  | c :: cs => litAt eqc pat (c :: cs) || hasLit eqc pat cs

/-! ### The data model of the script -/

/-- A failure of `element.find_element` in selenium: no match, stale element
handle, or an invalid selector.  `ApartmentScraper._get_text` catches every
one of them with its bare `except`. -/
inductive LookupFailure
  | noMatch
  | staleHandle
  | badSelector
deriving DecidableEq

/-- A selenium element handle, modelled by what each relative CSS-selector
lookup on it yields: either a failure or the element's rendered text. -/
def ElementHandle := List (String × Except LookupFailure String)

/-- Model of `element.find_element(By.CSS_SELECTOR, selector)`: a selector not covered
by the handle is a no-match failure. -/
def find_element (element : ElementHandle) (selector : String) :
    Except LookupFailure String :=
  match element.find? (fun q => q.1 == selector) with
  | none => Except.error LookupFailure.noMatch
  | some q => q.2

/-- Model of `ApartmentScraper._get_text`: resolve the selector relative to the
element; on any failure return `""`; on success strip the text, and for the
availability selector additionally remove the `"Availability\n"` literal. -/
def _get_text (element : ElementHandle) (selector : String) : String :=
  match find_element element selector with
  | Except.error _ => ""
  | Except.ok raw =>
    let text := pyStrip raw
    if selector = "span.dateAvailable" then
      pyReplaceAll "Availability\n" text
    else
      text

/-- One scraped unit record: the dict built in `scrape_listing`. -/
structure UnitRecord where
  unit_number : String
  sq_ft : String
  price : String
  availability : String
deriving DecidableEq

/-- Outcome of rendering the page: either the 20-second wait for
`js-unitContainerV3` timed out, or the wait succeeded and
`find_elements(By.CLASS_NAME, "js-unitContainerV3")` returned the given
handles in document order. -/
inductive PageOutcome
  | timeout
  | loaded (units : List ElementHandle)

/-- The record built for one unit element in `scrape_listing`'s loop. -/
def mkUnitData (unit : ElementHandle) : UnitRecord :=
  { unit_number := _get_text unit ".unitColumn.column"
    sq_ft := _get_text unit ".sqftColumn.column span:nth-child(2)"
    price := _get_text unit ".pricingColumn.column .screenReaderOnly + span"
    availability := _get_text unit "span.dateAvailable" }

/-- Model of `ApartmentScraper.scrape_listing`: on timeout return `[]`; otherwise
iterate over the unit elements appending one record per unit. -/
def scrape_listing : PageOutcome → List UnitRecord
  | PageOutcome.timeout => []
  | PageOutcome.loaded units =>
    units.foldl (fun acc unit => acc ++ [mkUnitData unit]) []

/-- Model of `ApartmentScraper._clean_data`: strip `"Availability\n"` from the
availability field of every record. -/
def _clean_data (data : List UnitRecord) : List UnitRecord :=
  data.map (fun u =>
    { u with availability := pyReplaceAll "Availability\n" u.availability })

/-- The bulk availability pass of `save_to_excel`:
`df['availability'].str.replace('availibility\n', '', case=False).str.strip()`
on one cell. -/
def bulkAvailabilityPass (s : String) : String :=
  pyStrip (ciRemoveAll "availibility\n" s)

/-- The record list as it stands in the DataFrame at the moment
`save_to_excel` writes it: `_clean_data` followed by the bulk availability
column pass. -/
def cleanForExport (data : List UnitRecord) : List UnitRecord :=
  (_clean_data data).map (fun u =>
    { u with availability := bulkAvailabilityPass u.availability })

/-! ### Output-path computation of `save_to_excel` -/

/-- Decimal digit character. -/
def natDecChar : Nat → Char
  | 0 => '0'
  | 1 => '1'
  | 2 => '2'
  | 3 => '3'
  | 4 => '4'
  | 5 => '5'
  | 6 => '6'
  | 7 => '7'
  | 8 => '8'
  | 9 => '9'
  | _ => '*'

/-- Decimal digits of `n` prepended to `acc` (fuel-bounded; fuel `n + 1`
always suffices). -/
def natDecAux : Nat → Nat → List Char → List Char
  | 0, _, acc => acc
  | fuel + 1, n, acc =>
    if n < 10 then natDecChar n :: acc
    else natDecAux fuel (n / 10) (natDecChar (n % 10) :: acc)

/-- Python `str(n)` for a natural number: its decimal digits. -/
def natDec (n : Nat) : String :=
  ⟨natDecAux (n + 1) n []⟩

/-- Python `s.startswith(pre)`. -/
def pyStartsWith (s pre : String) : Bool :=
  pre.data.isPrefixOf s.data

/-- Python `s.endswith(suf)`. -/
def pyEndsWith (s suf : String) : Bool :=
  suf.data.isSuffixOf s.data

/-- Model of `os.path.basename` on a POSIX path: everything after the last slash. -/
def posixBasenameL (p : List Char) : List Char :=
  (p.reverse.takeWhile (fun c => c ≠ '/')).reverse

/-- Model of `os.path.basename`. -/
def os_path_basename (p : String) : String :=
  ⟨posixBasenameL p.data⟩

/-- Split an extension off a path's final component `base`: the extension
begins at the last dot, provided a non-dot character precedes that dot
within `base` (leading dots never start an extension). -/
def splitextBase (base : List Char) : List Char × List Char :=
  let lead := base.takeWhile (fun c => c = '.')
  let core := base.dropWhile (fun c => c = '.')
  if core.contains '.' then
    let extRev := core.reverse.takeWhile (fun c => c ≠ '.')
    let ext := '.' :: extRev.reverse
    (lead ++ core.take (core.length - ext.length), ext)
  else
    (base, [])

/-- Model of `os.path.splitext` on a POSIX path: the root keeps the directory part;
the extension is split off the final component. -/
def splitextL (p : List Char) : List Char × List Char :=
  let base := posixBasenameL p
  let dir := p.take (p.length - base.length)
  (dir ++ (splitextBase base).1, (splitextBase base).2)

/-- Model of `os.path.splitext`. -/
def os_path_splitext (p : String) : String × String :=
  ((⟨(splitextL p.data).1⟩ : String), (⟨(splitextL p.data).2⟩ : String))

/-- Model of `os.path.join` for two POSIX path components. -/
def os_path_join (a b : String) : String :=
  if pyStartsWith b "/" then b
  else if a = "" || pyEndsWith a "/" then a ++ b
  else a ++ "/" ++ b

/-- The fixed output directory of the script. -/
def SCRAPED_DIR : String := "scraped"

/-- The candidate output path tried by `save_to_excel` for a given counter:
counter `0` is `os.path.join(SCRAPED_DIR, output_file)`; counter `k ≥ 1` is
`os.path.join(SCRAPED_DIR, f"{base_name}_{k}{extension}")` with
`base_name = splitext(basename(output_file))[0]` and
`extension = splitext(output_file)[1]`. -/
def candidatePath (output_file : String) : Nat → String
  | 0 => os_path_join SCRAPED_DIR output_file
  | k + 1 =>
    os_path_join SCRAPED_DIR
      ((os_path_splitext (os_path_basename output_file)).1 ++ "_" ++
        natDec (k + 1) ++ (os_path_splitext output_file).2)

/-- The `while os.path.exists(final_output_file)` loop of `save_to_excel`,
fuel-bounded: starting at counter `k`, return the first candidate path not in
the filesystem `fs`. -/
def findFreePath (fs : List String) (output_file : String) :
    Nat → Nat → String
  | 0, k => candidatePath output_file k
  | fuel + 1, k =>
    if candidatePath output_file k ∈ fs then
      findFreePath fs output_file fuel (k + 1)
    else
      candidatePath output_file k

/-- The final output path chosen by `save_to_excel` against filesystem `fs`
(fuel `fs.length + 1` suffices, as proved below). -/
def save_to_excel_path (fs : List String) (output_file : String) : String :=
  findFreePath fs output_file (fs.length + 1) 0

/-! ### `main` -/

/-- The hardcoded default URL of `main`. -/
def DEFAULT_URL : String := "https://www.apartments.com/post-chicago-il/bdv81bb/"

/-- The accepted domain of the `url.startswith` check in `main`. -/
def APARTMENTS_DOMAIN : String := "https://www.apartments.com/"

/-- What one run of `main` produced: the scraped records and the path
written, if any. -/
structure MainResult where
  records : List UnitRecord
  written : Option String
deriving DecidableEq

/-- The scrape-then-save tail of `main`: scrape the listing, and call
`save_to_excel` with `"apartment_listings.xlsx"` exactly when the record
list is nonempty. -/
def mainScrapeSave (page : PageOutcome) (fs : List String) : MainResult :=
  let units_data := scrape_listing page
  if units_data = [] then
    { records := units_data, written := none }
  else
    { records := units_data,
      written := some (save_to_excel_path fs "apartment_listings.xlsx") }

/-- Model of `main`: read the URL (stripped); an empty URL falls back to
`DEFAULT_URL`; a nonempty URL not starting with the accepted domain is
rejected with no scrape and no write; otherwise scrape and save.  The page
outcome and the filesystem are the external world of the run. -/
def main_run (input : String) (page : PageOutcome) (fs : List String) :
    MainResult :=
  let url := pyStrip input
  if url = "" then
    mainScrapeSave page fs
  else if pyStartsWith url APARTMENTS_DOMAIN = false then
    { records := [], written := none }
  else
    mainScrapeSave page fs

/-! ### Auxiliary definitions used only in proofs and concrete scenarios -/

/-- Horner evaluation of a decimal digit list, a left inverse of `natDec`. -/
def decValAux (acc : Nat) : List Char → Nat
  | [] => acc
  | c :: cs => decValAux (10 * acc + (c.toNat - 48)) cs

/-- A unit element whose square-footage lookup fails with a stale handle. -/
def unitMissingSqFt : ElementHandle :=
  [(".unitColumn.column", Except.ok " 12B "),
   (".pricingColumn.column .screenReaderOnly + span", Except.ok "$1,500"),
   ("span.dateAvailable", Except.error LookupFailure.staleHandle)]

/-- An element whose availability text carries the `"Availability"` label. -/
def elemWithLabel : ElementHandle :=
  [("span.dateAvailable", Except.ok "Availability\nJan 5")]

/-- A unit element carrying the first §8 example text of the spec. -/
def unitExampleOne : ElementHandle :=
  [("span.dateAvailable", Except.ok "Availability\nJan 5, 2025")]

/-- A unit element carrying the second §8 example text of the spec. -/
def unitExampleTwo : ElementHandle :=
  [("span.dateAvailable", Except.ok "AVAILIBILITY\n Feb 1")]

/-- A unit element where every selector resolves. -/
def unitComplete : ElementHandle :=
  [(".unitColumn.column", Except.ok "101"),
   (".sqftColumn.column span:nth-child(2)", Except.ok "850"),
   (".pricingColumn.column .screenReaderOnly + span", Except.ok "$1,200"),
   ("span.dateAvailable", Except.ok "Availability\nNow")]

/-- A record whose availability still has surrounding whitespace. -/
def recordPadded : UnitRecord :=
  { unit_number := "7", sq_ft := "900", price := "$2,000",
    availability := "  Mar 3  " }

/-! Sanity checks on concrete inputs (claim C5 examples and path naming). -/

example : pyStrip "  a b\n" = "a b" := by decide

example : pyReplaceAll "Availability\n" "Availability\nJan 5, 2025" = "Jan 5, 2025" := by
  decide

example :
    bulkAvailabilityPass (pyReplaceAll "Availability\n"
      (pyStrip "AVAILIBILITY\n Feb 1")) = "Feb 1" := by decide

example : natDec 12 = "12" := by decide

example : candidatePath "name.ext" 0 = "scraped/name.ext" := by decide

example : candidatePath "name.ext" 2 = "scraped/name_2.ext" := by decide

example : candidatePath "sub/name.ext" 1 = "scraped/name_1.ext" := by decide

example :
    save_to_excel_path ["scraped/name.ext", "scraped/name_1.ext"] "name.ext" =
      "scraped/name_2.ext" := by decide

example : os_path_splitext ".bashrc" = (".bashrc", "") := by decide

example : os_path_splitext "a/b.c" = ("a/b", ".c") := by decide

/-! ## Helper lemmas: stripping -/

/-- The head surviving a `dropWhile` does not satisfy the predicate. -/
theorem dropWhile_head_false {α : Type} (p : α → Bool) :
    ∀ (l : List α) (c : α) (cs : List α),
      l.dropWhile p = c :: cs → p c = false := by
  intro l
  induction l with
  | nil => intro c cs h; simp at h
  | cons a as ih =>
    intro c cs h
    rw [List.dropWhile_cons] at h
    by_cases ha : p a = true
    · rw [if_pos ha] at h
      exact ih c cs h
    · rw [if_neg ha] at h
      injection h with h1 _
      rw [← h1]
      simpa using ha

/-- A further left-trim of a stripped list is a no-op. -/
theorem pyStripL_dropWhile (l : List Char) :
    (pyStripL l).dropWhile isPySpace = pyStripL l := by
  cases hB : pyStripL l with
  | nil => rfl
  | cons c cs =>
    have hpre := List.rdropWhile_prefix isPySpace (l.dropWhile isPySpace)
    rw [show (l.dropWhile isPySpace).rdropWhile isPySpace = pyStripL l from rfl,
      hB] at hpre
    obtain ⟨t, ht⟩ := hpre
    have hc : isPySpace c = false := by
      apply dropWhile_head_false isPySpace l c (cs ++ t)
      rw [← ht]
      simp
    rw [List.dropWhile_cons, if_neg (by simp [hc])]

/-- Python `strip` is idempotent (list level). -/
theorem pyStripL_idem (l : List Char) : pyStripL (pyStripL l) = pyStripL l := by
  conv_lhs => rw [pyStripL]
  rw [pyStripL_dropWhile]
  conv_lhs => rw [pyStripL]
  exact List.rdropWhile_idempotent isPySpace (l.dropWhile isPySpace)

/-- Python `strip` is idempotent. -/
theorem pyStrip_idem (s : String) : pyStrip (pyStrip s) = pyStrip s := by
  show (⟨pyStripL (pyStripL s.data)⟩ : String) = ⟨pyStripL s.data⟩
  rw [pyStripL_idem]

/-! ## Helper lemmas: literal removal -/

/-- The function `removeAllAux` does not depend on the fuel, given enough of it. -/
theorem removeAllAux_fuel_irrel (eqc : Char → Char → Bool) (pat : List Char) :
    ∀ f1 f2 l, l.length ≤ f1 → l.length ≤ f2 →
      removeAllAux eqc pat f1 l = removeAllAux eqc pat f2 l := by
  intro f1
  induction f1 with
  | zero =>
    intro f2 l h1 _
    have hl : l = [] := by
      cases l with
      | nil => rfl
      | cons c cs => simp at h1
    subst hl
    cases f2 <;> rfl
  | succ f ih =>
    intro f2 l h1 h2
    cases l with
    | nil => cases f2 <;> rfl
    | cons c rest =>
      cases f2 with
      | zero => simp at h2
      | succ f2p =>
        have hr1 : rest.length ≤ f := by
          simp only [List.length_cons] at h1
          omega
        have hr2 : rest.length ≤ f2p := by
          simp only [List.length_cons] at h2
          omega
        have hd : (rest.drop (pat.length - 1)).length ≤ rest.length := by
          rw [List.length_drop]
          exact Nat.sub_le _ _
        simp only [removeAllAux]
        by_cases hm : litAt eqc pat (c :: rest) = true
        · rw [if_pos hm, if_pos hm]
          exact ih f2p _ (le_trans hd hr1) (le_trans hd hr2)
        · rw [if_neg hm, if_neg hm]
          exact congrArg (c :: ·) (ih f2p rest hr1 hr2)

/-- Unfolding `removeAllL` at a matching head. -/
theorem removeAllL_cons_pos (eqc : Char → Char → Bool) (pat : List Char)
    (c : Char) (rest : List Char) (h : litAt eqc pat (c :: rest) = true) :
    removeAllL eqc pat (c :: rest) =
      removeAllL eqc pat (rest.drop (pat.length - 1)) := by
  show removeAllAux eqc pat (c :: rest).length (c :: rest) = _
  rw [List.length_cons]
  simp only [removeAllAux]
  rw [if_pos h]
  exact removeAllAux_fuel_irrel eqc pat rest.length _ _
    (by rw [List.length_drop]; exact Nat.sub_le _ _) (le_refl _)

/-- Unfolding `removeAllL` at a non-matching head. -/
theorem removeAllL_cons_neg (eqc : Char → Char → Bool) (pat : List Char)
    (c : Char) (rest : List Char) (h : ¬ litAt eqc pat (c :: rest) = true) :
    removeAllL eqc pat (c :: rest) = c :: removeAllL eqc pat rest := by
  show removeAllAux eqc pat (c :: rest).length (c :: rest) = _
  rw [List.length_cons]
  simp only [removeAllAux]
  rw [if_neg h]
  rfl

/-- A list without any occurrence of the literal is left unchanged. -/
theorem removeAllL_id_of_no_occurrence (eqc : Char → Char → Bool)
    (pat : List Char) :
    ∀ l, hasLit eqc pat l = false → removeAllL eqc pat l = l := by
  intro l
  induction l with
  | nil => intro _; rfl
  | cons c cs ih =>
    intro h
    have h2 : litAt eqc pat (c :: cs) = false ∧ hasLit eqc pat cs = false := by
      simpa [hasLit] using h
    rw [removeAllL_cons_neg eqc pat c cs (by simp [h2.1]), ih h2.2]

/-- A literal matches at the head of itself. -/
theorem litAt_append_self (eqc : Char → Char → Bool)
    (hrefl : ∀ c, eqc c c = true) :
    ∀ pat s : List Char, litAt eqc pat (pat ++ s) = true := by
  intro pat
  induction pat with
  | nil => intro s; rfl
  | cons p ps ih => intro s; simp [litAt, hrefl, ih s]

/-- The scan removes a leading occurrence of the literal and keeps going. -/
theorem removeAllL_append_self (eqc : Char → Char → Bool)
    (hrefl : ∀ c, eqc c c = true) (p0 : Char) (ps s : List Char) :
    removeAllL eqc (p0 :: ps) ((p0 :: ps) ++ s) = removeAllL eqc (p0 :: ps) s := by
  have hm : litAt eqc (p0 :: ps) (p0 :: (ps ++ s)) = true := by
    have := litAt_append_self eqc hrefl (p0 :: ps) s
    simpa using this
  have hstep := removeAllL_cons_pos eqc (p0 :: ps) p0 (ps ++ s) hm
  have hd : (ps ++ s).drop ((p0 :: ps).length - 1) = s := by
    simp [List.drop_left]
  rw [show (p0 :: ps) ++ s = p0 :: (ps ++ s) from rfl, hstep, hd]

/-! ## Helper lemmas: record assembly -/

/-- The append-accumulating fold of `scrape_listing` is a `map`. -/
theorem foldl_append_eq_map {α β : Type} (f : α → β) :
    ∀ (l : List α) (init : List β),
      l.foldl (fun acc u => acc ++ [f u]) init = init ++ l.map f := by
  intro l
  induction l with
  | nil => intro init; simp
  | cons a as ih => intro init; simp [ih, List.map_cons]

/-- The extractor `_get_text` collapses every lookup failure to the empty string. -/
theorem _get_text_of_error (element : ElementHandle) (selector : String)
    (failure : LookupFailure)
    (h : find_element element selector = Except.error failure) :
    _get_text element selector = "" := by
  unfold _get_text
  rw [h]

/-- The extractor `_get_text` on a successful lookup: strip, and for the availability
selector remove the `"Availability\n"` literal. -/
theorem _get_text_of_ok (element : ElementHandle) (selector raw : String)
    (h : find_element element selector = Except.ok raw) :
    _get_text element selector =
      if selector = "span.dateAvailable" then
        pyReplaceAll "Availability\n" (pyStrip raw)
      else pyStrip raw := by
  unfold _get_text
  rw [h]

/-! ## Claim theorems: extraction and normalization -/

/-- C1: for every sequence of unit elements, `scrape_listing`'s per-unit loop
produces exactly one record per unit element, in input order (the loop is a
`map`), and a field whose selector fails to resolve is the empty string while
the record is still included. -/
theorem c1_one_record_per_unit (units : List ElementHandle) :
    (scrape_listing (PageOutcome.loaded units)).length = units.length ∧
    scrape_listing (PageOutcome.loaded units) = units.map mkUnitData ∧
    ∀ (unit : ElementHandle) (failure : LookupFailure),
      (find_element unit ".unitColumn.column" = Except.error failure →
        (mkUnitData unit).unit_number = "") ∧
      (find_element unit ".sqftColumn.column span:nth-child(2)" =
          Except.error failure → (mkUnitData unit).sq_ft = "") ∧
      (find_element unit ".pricingColumn.column .screenReaderOnly + span" =
          Except.error failure → (mkUnitData unit).price = "") ∧
      (find_element unit "span.dateAvailable" = Except.error failure →
        (mkUnitData unit).availability = "") := by
  have hmap : scrape_listing (PageOutcome.loaded units) = units.map mkUnitData := by
    show units.foldl (fun acc unit => acc ++ [mkUnitData unit]) [] = _
    rw [foldl_append_eq_map mkUnitData units []]
    simp
  refine ⟨by rw [hmap]; simp, hmap, ?_⟩
  intro unit failure
  exact ⟨fun h => _get_text_of_error unit _ failure h,
    fun h => _get_text_of_error unit _ failure h,
    fun h => _get_text_of_error unit _ failure h,
    fun h => _get_text_of_error unit _ failure h⟩

/-- C1 witness: one unit with a failing square-footage selector still yields
exactly one record, whose `sq_ft` field is empty. -/
theorem c1_witness :
    (scrape_listing (PageOutcome.loaded [unitMissingSqFt])).length = 1 ∧
    (mkUnitData unitMissingSqFt).sq_ft = "" :=
  ⟨(c1_one_record_per_unit [unitMissingSqFt]).1,
   ((c1_one_record_per_unit [unitMissingSqFt]).2.2 unitMissingSqFt
      LookupFailure.noMatch).2.1 rfl⟩

/-- C2 counterexample: on a successful availability lookup whose text
contains the `"Availability\n"` label, `_get_text` does not return the
element's trimmed text — it also removes the label.  The claim's success
clause ("on success it returns the element's trimmed text") is therefore
false as stated. -/
theorem c2_counterexample :
    find_element elemWithLabel "span.dateAvailable" =
      Except.ok "Availability\nJan 5" ∧
    _get_text elemWithLabel "span.dateAvailable" ≠
      pyStrip "Availability\nJan 5" :=
  ⟨rfl, by decide⟩

/-- C2 (amended): `_get_text` is total; every lookup failure yields the empty
string, and a successful lookup yields the trimmed text, additionally
stripped of the `"Availability\n"` literal when the selector is the
availability selector. -/
theorem c2_extract_amended (element : ElementHandle) (selector : String) :
    (∀ failure, find_element element selector = Except.error failure →
      _get_text element selector = "") ∧
    (∀ raw, find_element element selector = Except.ok raw →
      _get_text element selector =
        if selector = "span.dateAvailable" then
          pyReplaceAll "Availability\n" (pyStrip raw)
        else pyStrip raw) :=
  ⟨fun failure h => _get_text_of_error element selector failure h,
   fun raw h => _get_text_of_ok element selector raw h⟩

/-- C2 witness: a stale-handle lookup collapses to `""`; a successful
non-availability lookup returns the stripped text. -/
theorem c2_witness :
    _get_text unitMissingSqFt "span.dateAvailable" = "" ∧
    _get_text unitComplete ".unitColumn.column" = pyStrip "101" := by
  constructor
  · exact (c2_extract_amended unitMissingSqFt "span.dateAvailable").1
      LookupFailure.staleHandle rfl
  · have h := (c2_extract_amended unitComplete ".unitColumn.column").2 "101" rfl
    rw [if_neg (by decide)] at h
    exact h

/-- C3 counterexample: Python's `str.replace` removes every occurrence, not
only the first one; removing only the first occurrence of
`"Availability\n"` would leave `"Availability\nJan 5"`. -/
theorem c3_counterexample :
    pyReplaceAll "Availability\n" "Availability\nAvailability\nJan 5" =
      "Jan 5" ∧
    pyReplaceAll "Availability\n" "Availability\nAvailability\nJan 5" ≠
      "Availability\nJan 5" := by
  constructor
  · decide
  · decide

/-- C3 (amended): the per-record pass removes every left-to-right
non-overlapping occurrence of the case-sensitive literal `"Availability\n"`
(in particular it strips a leading occurrence and keeps scanning), and text
not containing the literal is returned unchanged. -/
theorem c3_per_record_pass_amended (s : String) :
    (hasLit csEq "Availability\n".data s.data = false →
      pyReplaceAll "Availability\n" s = s) ∧
    pyReplaceAll "Availability\n" ("Availability\n" ++ s) =
      pyReplaceAll "Availability\n" s := by
  constructor
  · intro h
    show (⟨removeAllL csEq "Availability\n".data s.data⟩ : String) = s
    rw [removeAllL_id_of_no_occurrence _ _ _ h]
  · show (⟨removeAllL csEq "Availability\n".data
        ("Availability\n" ++ s).data⟩ : String) =
      ⟨removeAllL csEq "Availability\n".data s.data⟩
    have hdata : ("Availability\n" ++ s).data =
        "Availability\n".data ++ s.data := rfl
    rw [hdata]
    have hlit : "Availability\n".data = 'A' :: "vailability\n".data := rfl
    rw [hlit]
    rw [removeAllL_append_self csEq (fun c => by simp [csEq]) 'A'
      "vailability\n".data s.data]

/-- C3 witness: the literal is removed case-sensitively (a lowercase variant
is untouched), and a leading occurrence is stripped with scanning
continuing. -/
theorem c3_witness :
    pyReplaceAll "Availability\n" "availability\nJan" = "availability\nJan" ∧
    pyReplaceAll "Availability\n" ("Availability\n" ++ "Jan") =
      pyReplaceAll "Availability\n" "Jan" :=
  ⟨(c3_per_record_pass_amended "availability\nJan").1 (by decide),
   (c3_per_record_pass_amended "Jan").2⟩

/-- C4 counterexample: the bulk availability pass is not idempotent on every
string — removing an occurrence can splice the surrounding text into a new
occurrence, which only a second pass removes. -/
theorem c4_counterexample :
    bulkAvailabilityPass
        (bulkAvailabilityPass "xavailiavailibility\nbility\nx") ≠
      bulkAvailabilityPass "xavailiavailibility\nbility\nx" := by
  decide

/-- C4 (amended): each pass is idempotent on every string whose
once-passed result no longer contains an occurrence of its literal (the
situation for all realistic scraped text). -/
theorem c4_idempotence_amended (s : String) :
    (hasLit ciEq "availibility\n".data (bulkAvailabilityPass s).data = false →
      bulkAvailabilityPass (bulkAvailabilityPass s) =
        bulkAvailabilityPass s) ∧
    (hasLit csEq "Availability\n".data
        (pyReplaceAll "Availability\n" s).data = false →
      pyReplaceAll "Availability\n" (pyReplaceAll "Availability\n" s) =
        pyReplaceAll "Availability\n" s) := by
  constructor
  · intro h
    show pyStrip (ciRemoveAll "availibility\n" (bulkAvailabilityPass s)) =
      bulkAvailabilityPass s
    have h1 : ciRemoveAll "availibility\n" (bulkAvailabilityPass s) =
        bulkAvailabilityPass s := by
      show (⟨removeAllL ciEq "availibility\n".data
        (bulkAvailabilityPass s).data⟩ : String) = _
      rw [removeAllL_id_of_no_occurrence _ _ _ h]
    rw [h1]
    exact pyStrip_idem (ciRemoveAll "availibility\n" s)
  · intro h
    show (⟨removeAllL csEq "Availability\n".data
        (pyReplaceAll "Availability\n" s).data⟩ : String) =
      pyReplaceAll "Availability\n" s
    rw [removeAllL_id_of_no_occurrence _ _ _ h]

/-- C4 witness: both passes are idempotent on the spec's own example text. -/
theorem c4_witness :
    bulkAvailabilityPass (bulkAvailabilityPass "Availability\nJan 5, 2025") =
      bulkAvailabilityPass "Availability\nJan 5, 2025" ∧
    pyReplaceAll "Availability\n"
        (pyReplaceAll "Availability\n" "Availability\nJan 5, 2025") =
      pyReplaceAll "Availability\n" "Availability\nJan 5, 2025" :=
  ⟨(c4_idempotence_amended "Availability\nJan 5, 2025").1 (by decide),
   (c4_idempotence_amended "Availability\nJan 5, 2025").2 (by decide)⟩

/-- C5: run end to end (extraction, `_clean_data`, bulk pass), the raw
availability text `"Availability\nJan 5, 2025"` normalizes to
`"Jan 5, 2025"` and `"AVAILIBILITY\n Feb 1"` normalizes to `"Feb 1"`. -/
theorem c5_normalization_examples :
    (cleanForExport (scrape_listing
        (PageOutcome.loaded [unitExampleOne, unitExampleTwo]))).map
      UnitRecord.availability = ["Jan 5, 2025", "Feb 1"] := by
  decide

/-- C8: the cleaning applied in `save_to_excel` (`_clean_data` plus the bulk
availability pass) touches only the availability column: the other three
fields of every record, and the record count, are unchanged. -/
theorem c8_bulk_pass_frame (data : List UnitRecord) :
    (cleanForExport data).map UnitRecord.unit_number =
      data.map UnitRecord.unit_number ∧
    (cleanForExport data).map UnitRecord.sq_ft = data.map UnitRecord.sq_ft ∧
    (cleanForExport data).map UnitRecord.price = data.map UnitRecord.price ∧
    (cleanForExport data).length = data.length := by
  unfold cleanForExport _clean_data
  refine ⟨?_, ?_, ?_, ?_⟩
  · rw [List.map_map, List.map_map]; rfl
  · rw [List.map_map, List.map_map]; rfl
  · rw [List.map_map, List.map_map]; rfl
  · rw [List.length_map, List.length_map]

/-- C9: every availability value in the exported table is free of leading
and trailing whitespace — the bulk pass ends in an unconditional
`str.strip`. -/
theorem c9_exported_availability_trimmed (data : List UnitRecord)
    (r : UnitRecord) (hr : r ∈ cleanForExport data) :
    pyStrip r.availability = r.availability := by
  unfold cleanForExport at hr
  obtain ⟨u, _, rfl⟩ := List.mem_map.mp hr
  show pyStrip (pyStrip (ciRemoveAll "availibility\n" u.availability)) =
    pyStrip (ciRemoveAll "availibility\n" u.availability)
  exact pyStrip_idem _

/-- C9 witness: a record whose availability was padded with spaces exports
with the padding gone, and the exported value is strip-stable. -/
theorem c9_witness :
    pyStrip (UnitRecord.mk "7" "900" "$2,000" "Mar 3").availability =
      (UnitRecord.mk "7" "900" "$2,000" "Mar 3").availability :=
  c9_exported_availability_trimmed [recordPadded] _ (by decide)

/-! ## Helper lemmas: the output-path computation -/

/-- String append acts as list append on the character data. -/
theorem strData_append (s t : String) : (s ++ t).data = s.data ++ t.data := rfl

/-- Digit characters decode back to their digit. -/
theorem natDecChar_val (d : Nat) (h : d < 10) : (natDecChar d).toNat - 48 = d := by
  interval_cases d <;> decide

/-- Horner evaluation `decValAux` is a left inverse of the digit rendering. -/
theorem decVal_natDecAux :
    ∀ fuel n accl, n < fuel →
      decValAux 0 (natDecAux fuel n accl) = decValAux n accl := by
  intro fuel
  induction fuel with
  | zero => intro n accl h; omega
  | succ f ih =>
    intro n accl h
    by_cases h10 : n < 10
    · show decValAux 0 (if n < 10 then natDecChar n :: accl
        else natDecAux f (n / 10) (natDecChar (n % 10) :: accl)) = _
      rw [if_pos h10]
      show decValAux (10 * 0 + ((natDecChar n).toNat - 48)) accl = decValAux n accl
      rw [natDecChar_val n h10]
      norm_num
    · show decValAux 0 (if n < 10 then natDecChar n :: accl
        else natDecAux f (n / 10) (natDecChar (n % 10) :: accl)) = _
      rw [if_neg h10]
      have hlt : n / 10 < f := by
        have h1 : n / 10 < n := Nat.div_lt_self (by omega) (by norm_num)
        omega
      rw [ih (n / 10) (natDecChar (n % 10) :: accl) hlt]
      show decValAux (10 * (n / 10) + ((natDecChar (n % 10)).toNat - 48)) accl =
        decValAux n accl
      rw [natDecChar_val (n % 10) (Nat.mod_lt n (by norm_num)), Nat.div_add_mod]

/-- The decimal rendering of a natural number is injective. -/
theorem natDec_inj (m n : Nat) (h : (natDec m).data = (natDec n).data) :
    m = n := by
  have hd : natDecAux (m + 1) m [] = natDecAux (n + 1) n [] := h
  have hm := decVal_natDecAux (m + 1) m [] (Nat.lt_succ_self m)
  have hn := decVal_natDecAux (n + 1) n [] (Nat.lt_succ_self n)
  rw [hd, hn] at hm
  exact hm.symm

/-- No decimal digit character is a slash. -/
theorem natDecChar_ne_slash (d : Nat) : natDecChar d ≠ '/' := by
  unfold natDecChar
  split <;> decide

/-- The rendering only emits digit characters over the accumulator. -/
theorem natDecAux_mem_ne_slash :
    ∀ fuel n accl c, (∀ x ∈ accl, x ≠ '/') → c ∈ natDecAux fuel n accl →
      c ≠ '/' := by
  intro fuel
  induction fuel with
  | zero => intro n accl c hacc hc; exact hacc c hc
  | succ f ih =>
    intro n accl c hacc hc
    rw [show natDecAux (f + 1) n accl = if n < 10 then natDecChar n :: accl
      else natDecAux f (n / 10) (natDecChar (n % 10) :: accl) from rfl] at hc
    by_cases h10 : n < 10
    · rw [if_pos h10] at hc
      rcases List.mem_cons.mp hc with h | h
      · rw [h]; exact natDecChar_ne_slash n
      · exact hacc c h
    · rw [if_neg h10] at hc
      refine ih (n / 10) (natDecChar (n % 10) :: accl) c ?_ hc
      intro x hx
      rcases List.mem_cons.mp hx with h | h
      · rw [h]; exact natDecChar_ne_slash (n % 10)
      · exact hacc x h

/-- No character of `natDec n` is a slash. -/
theorem natDec_ne_slash (n : Nat) : ∀ c ∈ (natDec n).data, c ≠ '/' := by
  intro c hc
  exact natDecAux_mem_ne_slash (n + 1) n [] c (by simp) hc

/-- A list of non-slash characters does not begin with `"/"`. -/
theorem isPrefixOf_slash_false (l : List Char) (h : ∀ c ∈ l, c ≠ '/') :
    ("/".data.isPrefixOf l) = false := by
  cases l with
  | nil => rfl
  | cons c cs =>
    show (('/' :: []).isPrefixOf (c :: cs)) = false
    have hc : c ≠ '/' := h c (by simp)
    simp [List.isPrefixOf, beq_iff_eq]
    intro h'
    exact absurd h'.symm hc

/-- A string starting with `"/"` has a slash as its first character. -/
theorem starts_slash_head (s : String) (h : pyStartsWith s "/" = true) :
    ∃ t, s.data = '/' :: t := by
  cases hs : s.data with
  | nil =>
    exfalso
    have h2 : ("/".data.isPrefixOf s.data) = true := h
    rw [hs] at h2
    simp [List.isPrefixOf] at h2
  | cons c cs =>
    have h2 : ("/".data.isPrefixOf s.data) = true := h
    rw [hs] at h2
    have h3 : ('/' == c && ([] : List Char).isPrefixOf cs) = true := h2
    simp [beq_iff_eq] at h3
    refine ⟨cs, ?_⟩
    rw [← h3]

/-- Joining a relative name onto the output directory prepends
`"scraped/"`. -/
theorem os_path_join_scraped (b : String) (h : pyStartsWith b "/" = false) :
    os_path_join SCRAPED_DIR b = "scraped/" ++ b := by
  unfold os_path_join
  rw [if_neg (by simp [h]), if_neg (by decide)]
  rfl

/-- The basename of a path contains no slash. -/
theorem mem_posixBasenameL (p : List Char) (c : Char)
    (hc : c ∈ posixBasenameL p) : c ≠ '/' := by
  unfold posixBasenameL at hc
  rw [List.mem_reverse] at hc
  have h2 := List.mem_takeWhile_imp hc
  simpa using h2

/-- A slash-free path is its own basename. -/
theorem posixBasenameL_of_no_slash (p : List Char) (h : ∀ c ∈ p, c ≠ '/') :
    posixBasenameL p = p := by
  unfold posixBasenameL
  have hall : ∀ x ∈ p.reverse, (fun c => decide (c ≠ '/')) x = true := by
    intro x hx
    simp only [decide_eq_true_eq]
    exact h x (List.mem_reverse.mp hx)
  rw [List.takeWhile_eq_self_iff.mpr hall, List.reverse_reverse]

/-- A path is its directory part followed by its basename. -/
theorem dir_append_basename (p : List Char) :
    p.take (p.length - (posixBasenameL p).length) ++ posixBasenameL p = p := by
  obtain ⟨t, ht⟩ := List.takeWhile_prefix (l := p.reverse) (fun c => c ≠ '/')
  have hsplit : t.reverse ++ posixBasenameL p = p := by
    have h1 := congrArg List.reverse ht
    simpa [posixBasenameL] using h1
  have hlen : p.length - (posixBasenameL p).length = t.reverse.length := by
    have h2 := congrArg List.length hsplit
    rw [List.length_append] at h2
    omega
  have htake : p.take t.reverse.length = t.reverse := by
    rw [← hsplit]
    exact List.take_left t.reverse (posixBasenameL p)
  rw [hlen, htake, hsplit]

/-- Splitting a component at its last dot: the part before the last dot,
followed by the dot and the dot-free tail, is the whole component. -/
theorem last_dot_split (core : List Char) (hmem : '.' ∈ core) :
    core.take (core.length -
        ('.' :: (core.reverse.takeWhile (fun c => c ≠ '.')).reverse).length) ++
      ('.' :: (core.reverse.takeWhile (fun c => c ≠ '.')).reverse) = core := by
  have hne : core.reverse.dropWhile (fun c => c ≠ '.') ≠ [] := by
    intro h0
    have hall := List.dropWhile_eq_nil_iff.mp h0
    have h2 := hall '.' (by rw [List.mem_reverse]; exact hmem)
    simp at h2
  cases hD : core.reverse.dropWhile (fun c => c ≠ '.') with
  | nil => exact absurd hD hne
  | cons d rest =>
    have hd : d = '.' := by
      have h3 := dropWhile_head_false (fun c => decide (c ≠ '.'))
        core.reverse d rest hD
      simpa using h3
    subst hd
    have hR : core.reverse =
        core.reverse.takeWhile (fun c => c ≠ '.') ++ ('.' :: rest) := by
      have h4 := (List.takeWhile_append_dropWhile
        (p := fun c => decide (c ≠ '.')) (l := core.reverse)).symm
      rw [hD] at h4
      exact h4
    have hcore : core = rest.reverse ++
        ('.' :: (core.reverse.takeWhile (fun c => c ≠ '.')).reverse) := by
      have h1 := congrArg List.reverse hR
      rw [List.reverse_reverse] at h1
      conv_lhs => rw [h1]
      rw [List.reverse_append, List.reverse_cons, List.append_assoc,
        List.singleton_append]
    have hlen3 : core.length -
        ('.' :: (core.reverse.takeWhile (fun c => c ≠ '.')).reverse).length =
        rest.reverse.length := by
      have h2 := congrArg List.length hcore
      rw [List.length_append] at h2
      omega
    have htake3 : core.take rest.reverse.length = rest.reverse := by
      conv_lhs => rw [hcore]
      exact List.take_left rest.reverse _
    rw [hlen3, htake3]
    exact hcore.symm

/-- The root and extension produced by `splitextBase` concatenate back to
the component. -/
theorem splitextBase_append (base : List Char) :
    (splitextBase base).1 ++ (splitextBase base).2 = base := by
  dsimp only [splitextBase]
  by_cases hdot :
      ((base.dropWhile (fun c => c = '.')).contains '.') = true
  · rw [if_pos hdot]
    have hmem : '.' ∈ base.dropWhile (fun c => c = '.') := by
      rcases List.contains_iff_exists_mem_beq.mp hdot with ⟨b, hb, hbeq⟩
      rw [show b = '.' from (beq_iff_eq.mp hbeq).symm] at hb
      exact hb
    rw [List.append_assoc,
      last_dot_split (base.dropWhile (fun c => c = '.')) hmem]
    exact List.takeWhile_append_dropWhile _ _
  · rw [if_neg hdot]
    simp

/-- Every character of the `splitextBase` root comes from the component. -/
theorem mem_splitextBase_fst (base : List Char) (c : Char)
    (hc : c ∈ (splitextBase base).1) : c ∈ base := by
  dsimp only [splitextBase] at hc
  by_cases hdot :
      ((base.dropWhile (fun c => c = '.')).contains '.') = true
  · rw [if_pos hdot] at hc
    rcases List.mem_append.mp hc with h | h
    · exact ( List.takeWhile_prefix (fun c => c = '.')).subset h
    · have h2 : c ∈ base.dropWhile (fun c => c = '.') :=
        List.take_subset _ _ h
      exact (List.dropWhile_suffix (fun c => c = '.')).subset h2
  · rw [if_neg hdot] at hc
    exact hc

/-- Every character of the `splitextBase` extension is a dot or comes from
the component. -/
theorem mem_splitextBase_snd (base : List Char) (c : Char)
    (hc : c ∈ (splitextBase base).2) : c = '.' ∨ c ∈ base := by
  dsimp only [splitextBase] at hc
  by_cases hdot :
      ((base.dropWhile (fun c => c = '.')).contains '.') = true
  · rw [if_pos hdot] at hc
    rcases List.mem_cons.mp hc with h | h
    · exact Or.inl h
    · right
      rw [List.mem_reverse] at h
      have h2 := ( List.takeWhile_prefix (fun c => c ≠ '.')).subset h
      rw [List.mem_reverse] at h2
      exact (List.dropWhile_suffix (fun c => c = '.')).subset h2
  · rw [if_neg hdot] at hc
    simp at hc

/-- Splitext root and extension concatenate back to the path. -/
theorem splitextL_append (p : List Char) :
    (splitextL p).1 ++ (splitextL p).2 = p := by
  dsimp only [splitextL]
  rw [List.append_assoc, splitextBase_append]
  exact dir_append_basename p

/-- Every character of the splitext root comes from the path. -/
theorem mem_splitextL_fst (p : List Char) (c : Char)
    (hc : c ∈ (splitextL p).1) : c ∈ p := by
  dsimp only [splitextL] at hc
  rcases List.mem_append.mp hc with h | h
  · exact List.take_subset _ _ h
  · have h2 := mem_splitextBase_fst _ _ h
    have h3 := dir_append_basename p
    rw [← h3]
    exact List.mem_append.mpr (Or.inr h2)

/-- Every character of the splitext extension is a dot or comes from the
basename. -/
theorem mem_splitextL_snd (p : List Char) (c : Char)
    (hc : c ∈ (splitextL p).2) : c = '.' ∨ c ∈ posixBasenameL p := by
  dsimp only [splitextL] at hc
  exact mem_splitextBase_snd _ _ hc

/-- The base name used for collision-suffixed candidates has no slash. -/
theorem stem_ne_slash (f : String) (c : Char)
    (hc : c ∈ (os_path_splitext (os_path_basename f)).1.data) : c ≠ '/' := by
  have h1 : c ∈ (splitextL (posixBasenameL f.data)).1 := hc
  have h2 := mem_splitextL_fst _ _ h1
  exact mem_posixBasenameL f.data c h2

/-- The extension used for collision-suffixed candidates has no slash. -/
theorem ext_ne_slash (f : String) (c : Char)
    (hc : c ∈ (os_path_splitext f).2.data) : c ≠ '/' := by
  have h1 : c ∈ (splitextL f.data).2 := hc
  rcases mem_splitextL_snd _ _ h1 with h | h
  · rw [h]; decide
  · exact mem_posixBasenameL f.data c h

/-- The file name built for a collision-suffixed candidate has no slash. -/
theorem candName_ne_slash (f : String) (k : Nat) :
    ∀ c ∈ (os_path_splitext (os_path_basename f)).1.data ++ "_".data ++
        (natDec (k + 1)).data ++ (os_path_splitext f).2.data, c ≠ '/' := by
  intro c hc
  rcases List.mem_append.mp hc with h | h
  · rcases List.mem_append.mp h with h2 | h2
    · rcases List.mem_append.mp h2 with h3 | h3
      · exact stem_ne_slash f c h3
      · have h4 : c = '_' := List.mem_singleton.mp h3
        rw [h4]; decide
    · exact natDec_ne_slash (k + 1) c h2
  · exact ext_ne_slash f c h

/-- The collision-suffixed candidate paths all live directly under
`"scraped/"`. -/
theorem candidatePath_succ (f : String) (k : Nat) :
    candidatePath f (k + 1) = "scraped/" ++
      ((os_path_splitext (os_path_basename f)).1 ++ "_" ++ natDec (k + 1) ++
        (os_path_splitext f).2) := by
  show os_path_join SCRAPED_DIR _ = _
  apply os_path_join_scraped
  exact isPrefixOf_slash_false _ (candName_ne_slash f k)

/-- The first candidate differs from every collision-suffixed candidate. -/
theorem candidatePath_zero_ne_succ (f : String) (k : Nat) :
    candidatePath f 0 ≠ candidatePath f (k + 1) := by
  intro h
  by_cases hsl : pyStartsWith f "/" = true
  · have h0 : candidatePath f 0 = f := by
      show os_path_join SCRAPED_DIR f = f
      unfold os_path_join
      rw [if_pos hsl]
    obtain ⟨t, ht⟩ := starts_slash_head f hsl
    rw [h0, candidatePath_succ f k] at h
    have hd := congrArg String.data h
    rw [ht, strData_append] at hd
    rw [show ("scraped/" : String).data = 's' :: "craped/".data from rfl] at hd
    injection hd with hc _
    exact absurd hc (by decide)
  · have hsl2 : pyStartsWith f "/" = false := by
      cases hq : pyStartsWith f "/"
      · rfl
      · exact absurd hq hsl
    have h0 : candidatePath f 0 = "scraped/" ++ f :=
      os_path_join_scraped f hsl2
    rw [h0, candidatePath_succ f k] at h
    have hd := congrArg String.data h
    simp only [strData_append] at hd
    have hf := List.append_cancel_left hd
    by_cases hmem : '/' ∈ f.data
    · rw [hf] at hmem
      exact absurd rfl (candName_ne_slash f k '/' hmem)
    · have hfree : ∀ c ∈ f.data, c ≠ '/' := by
        intro c hc hceq
        rw [hceq] at hc
        exact hmem hc
      have hbase : posixBasenameL f.data = f.data :=
        posixBasenameL_of_no_slash f.data hfree
      have hf2 : f.data =
          (((splitextL (posixBasenameL f.data)).1 ++ ['_']) ++
            (natDec (k + 1)).data) ++ (splitextL f.data).2 := hf
      rw [hbase] at hf2
      have h6 := splitextL_append f.data
      have hlenf := congrArg List.length hf2
      have hlen6 := congrArg List.length h6
      simp only [List.length_append, List.length_cons, List.length_nil]
        at hlenf hlen6
      omega

/-- The candidate-path sequence tried by `save_to_excel` never repeats. -/
theorem candidatePath_inj (f : String) (j k : Nat)
    (h : candidatePath f j = candidatePath f k) : j = k := by
  cases j with
  | zero =>
    cases k with
    | zero => rfl
    | succ kp => exact absurd h (candidatePath_zero_ne_succ f kp)
  | succ jp =>
    cases k with
    | zero => exact absurd h.symm (candidatePath_zero_ne_succ f jp)
    | succ kp =>
      rw [candidatePath_succ f jp, candidatePath_succ f kp] at h
      have hd := congrArg String.data h
      simp only [strData_append] at hd
      have h3 := List.append_cancel_left hd
      have h4 := List.append_cancel_right h3
      have h5 := List.append_cancel_left h4
      have h6 := natDec_inj (jp + 1) (kp + 1) h5
      omega

/-- If some candidate within the fuel bound is free, the search loop of
`save_to_excel` returns a path that does not exist yet. -/
theorem findFreePath_not_mem (fs : List String) (f : String) :
    ∀ fuel k, (∃ j, j < fuel ∧ candidatePath f (k + j) ∉ fs) →
      findFreePath fs f fuel k ∉ fs := by
  intro fuel
  induction fuel with
  | zero =>
    intro k hex
    obtain ⟨j, hj, _⟩ := hex
    omega
  | succ fl ih =>
    intro k hex
    obtain ⟨j, hj, hfree⟩ := hex
    show (if candidatePath f k ∈ fs then findFreePath fs f fl (k + 1)
      else candidatePath f k) ∉ fs
    by_cases hk : candidatePath f k ∈ fs
    · rw [if_pos hk]
      apply ih (k + 1)
      cases j with
      | zero => exact absurd hk (by simpa using hfree)
      | succ jp =>
        refine ⟨jp, by omega, ?_⟩
        rw [show k + 1 + jp = k + (jp + 1) from by omega]
        exact hfree
    · rw [if_neg hk]
      exact hk

/-- Pigeonhole: among the first `fs.length + 1` candidate paths, at least
one does not exist in `fs`. -/
theorem exists_free_candidate (fs : List String) (f : String) :
    ∃ j, j < fs.length + 1 ∧ candidatePath f j ∉ fs := by
  by_contra hall
  push_neg at hall
  have hinj : Function.Injective (candidatePath f) := fun a b h =>
    candidatePath_inj f a b h
  have hnd : ((List.range (fs.length + 1)).map (candidatePath f)).Nodup :=
    List.Nodup.map hinj (List.nodup_range _)
  have hsub : ((List.range (fs.length + 1)).map (candidatePath f)).toFinset ⊆
      fs.toFinset := by
    intro x hx
    rw [List.mem_toFinset] at hx ⊢
    obtain ⟨j, hj, rfl⟩ := List.mem_map.mp hx
    exact hall j (List.mem_range.mp hj)
  have h1 : ((List.range (fs.length + 1)).map (candidatePath f)).toFinset.card =
      fs.length + 1 := by
    rw [List.toFinset_card_of_nodup hnd]
    simp
  have h2 := Finset.card_le_card hsub
  have h3 : fs.toFinset.card ≤ fs.length := List.toFinset_card_le fs
  omega

/-! ## Claim theorems: export path and `main` -/

/-- C6: the export path chosen by `save_to_excel` never refers to an
already-existing file, and three successive exports of the same desired name
yield the three distinct files `name.ext`, `name_1.ext`, `name_2.ext` in the
output directory, none overwritten. -/
theorem c6_no_overwrite :
    (∀ (fs : List String) (output_file : String),
      save_to_excel_path fs output_file ∉ fs) ∧
    save_to_excel_path [] "name.ext" = "scraped/name.ext" ∧
    save_to_excel_path ["scraped/name.ext"] "name.ext" =
      "scraped/name_1.ext" ∧
    save_to_excel_path ["scraped/name_1.ext", "scraped/name.ext"]
      "name.ext" = "scraped/name_2.ext" := by
  refine ⟨?_, by decide, by decide, by decide⟩
  intro fs f
  apply findFreePath_not_mem fs f (fs.length + 1) 0
  obtain ⟨j, hj, hfree⟩ := exists_free_candidate fs f
  refine ⟨j, hj, ?_⟩
  rw [Nat.zero_add]
  exact hfree

/-- C6 witness: when the default output name already exists, the chosen path
is a fresh one. -/
theorem c6_witness :
    save_to_excel_path ["scraped/apartment_listings.xlsx"]
      "apartment_listings.xlsx" ∉ ["scraped/apartment_listings.xlsx"] :=
  c6_no_overwrite.1 ["scraped/apartment_listings.xlsx"]
    "apartment_listings.xlsx"

/-- C7 counterexample: an empty input URL does not start with the accepted
domain, yet the run falls back to the default URL, scrapes data and writes a
file — the claim's condition "the input URL does not start with the accepted
domain prefix" fails on empty input. -/
theorem c7_counterexample :
    pyStartsWith (pyStrip "") APARTMENTS_DOMAIN = false ∧
    (main_run "" (PageOutcome.loaded [unitComplete]) []).records ≠ [] ∧
    (main_run "" (PageOutcome.loaded [unitComplete]) []).written =
      some "scraped/apartment_listings.xlsx" := by
  refine ⟨by decide, by decide, by decide⟩

/-- C7 (amended): a nonempty input URL that does not start with the accepted
domain prefix, a render timeout, and a page with zero unit elements all
produce an empty result with no file written. -/
theorem c7_no_data_amended (input : String) (fs : List String) :
    (∀ page, pyStrip input ≠ "" →
      pyStartsWith (pyStrip input) APARTMENTS_DOMAIN = false →
      main_run input page fs = { records := [], written := none }) ∧
    main_run input PageOutcome.timeout fs =
      { records := [], written := none } ∧
    main_run input (PageOutcome.loaded []) fs =
      { records := [], written := none } := by
  have hms : ∀ page, scrape_listing page = [] →
      mainScrapeSave page fs = { records := [], written := none } := by
    intro page hp
    simp [mainScrapeSave, hp]
  refine ⟨?_, ?_, ?_⟩
  · intro page hne hdom
    simp only [main_run]
    rw [if_neg hne, if_pos hdom]
  · by_cases h1 : pyStrip input = ""
    · simp only [main_run]
      rw [if_pos h1]
      exact hms PageOutcome.timeout rfl
    · by_cases h2 : pyStartsWith (pyStrip input) APARTMENTS_DOMAIN = false
      · simp only [main_run]
        rw [if_neg h1, if_pos h2]
      · simp only [main_run]
        rw [if_neg h1, if_neg h2]
        exact hms PageOutcome.timeout rfl
  · by_cases h1 : pyStrip input = ""
    · simp only [main_run]
      rw [if_pos h1]
      exact hms (PageOutcome.loaded []) rfl
    · by_cases h2 : pyStartsWith (pyStrip input) APARTMENTS_DOMAIN = false
      · simp only [main_run]
        rw [if_neg h1, if_pos h2]
      · simp only [main_run]
        rw [if_neg h1, if_neg h2]
        exact hms (PageOutcome.loaded []) rfl

/-- C7 witness: the spec's §8 example URL of the wrong domain is rejected
with no records and no write, and a timeout on the default URL likewise. -/
theorem c7_witness :
    main_run "https://example.com/x" (PageOutcome.loaded [unitComplete]) [] =
      { records := [], written := none } ∧
    main_run "https://www.apartments.com/post-chicago-il/bdv81bb/"
      PageOutcome.timeout [] = { records := [], written := none } :=
  ⟨(c7_no_data_amended "https://example.com/x" []).1
      (PageOutcome.loaded [unitComplete]) (by decide) (by decide),
   (c7_no_data_amended "https://www.apartments.com/post-chicago-il/bdv81bb/"
      []).2.1⟩

/-- C10 counterexample: for a desired name that begins with the path
separator, `os.path.join` discards the output directory entirely, so the
first candidate does not stay under the output directory at all. -/
theorem c10_counterexample :
    candidatePath "/tmp/name.ext" 0 = "/tmp/name.ext" ∧
    pyStartsWith (candidatePath "/tmp/name.ext" 0) SCRAPED_DIR = false := by
  refine ⟨by decide, by decide⟩

/-- C10 (amended): for a desired file name not starting with the separator,
the first candidate keeps any directory component under the output
directory, while every collision-suffixed candidate is built from the bare
base name and lands directly in the output directory (its name part contains
no slash). -/
theorem c10_suffixed_in_output_dir (f : String)
    (hrel : pyStartsWith f "/" = false) :
    candidatePath f 0 = "scraped/" ++ f ∧
    ∀ k, ∃ w : String, candidatePath f (k + 1) = "scraped/" ++ w ∧
      ∀ c ∈ w.data, c ≠ '/' := by
  constructor
  · exact os_path_join_scraped f hrel
  · intro k
    refine ⟨(os_path_splitext (os_path_basename f)).1 ++ "_" ++
      natDec (k + 1) ++ (os_path_splitext f).2, candidatePath_succ f k, ?_⟩
    intro c hc
    exact candName_ne_slash f k c hc

/-- C10 witness: a desired name with a subdirectory keeps it in the first
candidate, and the first collision-suffixed candidate drops it. -/
theorem c10_witness :
    candidatePath "sub/name.ext" 0 = "scraped/" ++ "sub/name.ext" ∧
    ∃ w : String, candidatePath "sub/name.ext" 1 = "scraped/" ++ w ∧
      ∀ c ∈ w.data, c ≠ '/' :=
  ⟨(c10_suffixed_in_output_dir "sub/name.ext" (by decide)).1,
   (c10_suffixed_in_output_dir "sub/name.ext" (by decide)).2 0⟩
